import Mathlib

/-!
Verification development for the hydra-security orchestration engine.

Each definition below is a shallow embedding of a function of the
TypeScript source (file and function named in its doc comment).  Numbers
of type `number` that the program only ever compares and copies are
modelled as `Int`; JavaScript `Map` objects are modelled as association
lists with JavaScript insertion-order semantics (`Map.set` on an existing
key updates the value in place, `Map.values()` iterates in insertion
order); `Array.prototype.sort` (stable since ES2019) is modelled as a
stable insertion sort.  Effectful collaborators (LLM calls, git, the
filesystem, the sandbox) are passed in as explicit oracle parameters, and
code that can throw is modelled in `Except`.
-/

/-- `Severity` from `src/types.ts`: "CRITICAL" | "HIGH" | "MEDIUM" | "LOW". -/
inductive Severity where
  | critical
  | high
  | medium
  | low
deriving DecidableEq, Repr

/-- `Finding` from `src/types.ts`.  `vuln_class` is a string-literal union
in TypeScript and is modelled by its underlying `String`; `confidence`
and `line` are `number` fields that the orchestrator only compares,
modelled as `Int`. -/
structure Finding where
  id : String
  scanner_id : String
  vuln_class : String
  severity : Severity
  confidence : Int
  file : String
  line : Int
  title : String
  description : String
  evidence : String
deriving DecidableEq, Repr

/-- The grouping key `` `${finding.vuln_class}|${finding.file}|${finding.line}` ``
built in `aggregateFindings` (src/orchestrator/aggregator.ts line 7). -/
def keyOf (f : Finding) : String :=
  f.vuln_class ++ "|" ++ f.file ++ "|" ++ toString f.line

/-- JavaScript `Map.get`: first (and by the nodup-key invariant only)
binding of the key. -/
def mapGet (m : List (String × Finding)) (k : String) : Option Finding :=
  match m with
  | [] => none
  | (k', v) :: rest => if k' = k then some v else mapGet rest k

/-- JavaScript `Map.set`: update in place when the key is present
(insertion order is kept), append otherwise. -/
def mapSet (m : List (String × Finding)) (k : String) (v : Finding) :
    List (String × Finding) :=
  match m with
  | [] => [(k, v)]
  | (k', v') :: rest =>
      if k' = k then (k, v) :: rest else (k', v') :: mapSet rest k v

/-- One iteration of the `for` loop of `aggregateFindings`
(src/orchestrator/aggregator.ts lines 6-12):
`if (!existing || finding.confidence > existing.confidence) byKey.set(key, finding)`. -/
def aggStep (m : List (String × Finding)) (f : Finding) :
    List (String × Finding) :=
  match mapGet m (keyOf f) with
  | none => mapSet m (keyOf f) f
  | some existing =>
      if f.confidence > existing.confidence then mapSet m (keyOf f) f else m

/-- Stable insertion of one element into a list already sorted by
descending `confidence`; together with `sortByConfDesc` this models the
stable `sort((a, b) => b.confidence - a.confidence)` of
src/orchestrator/aggregator.ts line 14. -/
def insertByConf (x : Finding) : List Finding → List Finding
  | [] => [x]
  | y :: ys =>
      if x.confidence < y.confidence then y :: insertByConf x ys
      else x :: y :: ys

/-- Stable sort by descending `confidence` (model of the ES2019-stable
`Array.prototype.sort` with comparator `b.confidence - a.confidence`). -/
def sortByConfDesc : List Finding → List Finding
  | [] => []
  | x :: xs => insertByConf x (sortByConfDesc xs)

/-- `aggregateFindings` from src/orchestrator/aggregator.ts lines 3-15:
group by `(vuln_class, file, line)` keeping, per key, the first finding
of maximal confidence (strict `>` replacement), then return the map
values sorted by descending confidence. -/
def aggregateFindings (findings : List Finding) : List Finding :=
  sortByConfDesc ((findings.foldl aggStep []).map Prod.snd)

/-- Modelled from the spec: a finding is *corroborated* within an input
list when at least two distinct `scanner_id`s contributed findings at
its `(vuln_class, file, line)` coordinate.  This vocabulary appears in
the spec only; `aggregateFindings` itself never computes it. -/
def specCorroborated (findings : List Finding) (f : Finding) : Prop :=
  2 ≤ (((findings.filter fun g => keyOf g = keyOf f).map
          Finding.scanner_id).dedup).length

instance (findings : List Finding) (f : Finding) :
    Decidable (specCorroborated findings f) := by
  unfold specCorroborated; infer_instance

/-! ### Association-list lemmas for the aggregator's `Map` -/

theorem mapGet_eq_none_iff (m : List (String × Finding)) (k : String) :
    mapGet m k = none ↔ k ∉ m.map Prod.fst := by
  induction m with
  | nil => simp [mapGet]
  | cons p rest ih =>
      obtain ⟨k', v⟩ := p
      by_cases h : k' = k
      · subst h; simp [mapGet]
      · simp [mapGet, h, ih, Ne.symm h]

theorem mapSet_of_get_none (m : List (String × Finding)) (k : String)
    (v : Finding) (h : mapGet m k = none) : mapSet m k v = m ++ [(k, v)] := by
  induction m with
  | nil => simp [mapSet]
  | cons p rest ih =>
      obtain ⟨k', v'⟩ := p
      by_cases hk : k' = k
      · subst hk; simp [mapGet] at h
      · simp only [mapGet, if_neg hk] at h
        simp [mapSet, hk, ih h]

theorem mem_keys_mapSet (m : List (String × Finding)) (k k' : String)
    (v : Finding) (h : k' ∈ (mapSet m k v).map Prod.fst) :
    k' ∈ m.map Prod.fst ∨ k' = k := by
  induction m with
  | nil => simp [mapSet] at h; simp [h]
  | cons p rest ih =>
      obtain ⟨k0, v0⟩ := p
      by_cases hk : k0 = k
      · subst hk
        simp [mapSet] at h
        rcases h with h | h
        · right; exact h
        · left; simp [h]
      · simp only [mapSet, if_neg hk, List.map_cons, List.mem_cons] at h
        rcases h with h | h
        · left; simp [h]
        · rcases ih h with h' | h'
          · left; simp [h']
          · right; exact h'

theorem nodup_keys_mapSet (m : List (String × Finding)) (k : String)
    (v : Finding) (h : (m.map Prod.fst).Nodup) :
    ((mapSet m k v).map Prod.fst).Nodup := by
  induction m with
  | nil => simp [mapSet]
  | cons p rest ih =>
      obtain ⟨k0, v0⟩ := p
      simp only [List.map_cons, List.nodup_cons] at h
      by_cases hk : k0 = k
      · subst hk
        simpa [mapSet] using h
      · simp only [mapSet, if_neg hk, List.map_cons, List.nodup_cons]
        refine ⟨fun hmem => ?_, ih h.2⟩
        rcases mem_keys_mapSet rest k k0 v hmem with h' | h'
        · exact h.1 h'
        · exact hk h'

theorem mem_mapSet (m : List (String × Finding)) (k : String) (v : Finding)
    (p : String × Finding) (h : p ∈ mapSet m k v) : p ∈ m ∨ p = (k, v) := by
  induction m with
  | nil => simp [mapSet] at h; simp [h]
  | cons q rest ih =>
      obtain ⟨k0, v0⟩ := q
      by_cases hk : k0 = k
      · subst hk
        have hrw : mapSet ((k0, v0) :: rest) k0 v = (k0, v) :: rest := by
          simp [mapSet]
        rw [hrw] at h
        rcases List.mem_cons.mp h with h | h
        · right; exact h
        · left; exact List.mem_cons_of_mem _ h
      · have hrw : mapSet ((k0, v0) :: rest) k v = (k0, v0) :: mapSet rest k v := by
          simp [mapSet, hk]
        rw [hrw] at h
        rcases List.mem_cons.mp h with h | h
        · left; simp [h]
        · rcases ih h with h' | h'
          · left; exact List.mem_cons_of_mem _ h'
          · right; exact h'

theorem mapGet_mapSet_self (m : List (String × Finding)) (k : String)
    (v : Finding) : mapGet (mapSet m k v) k = some v := by
  induction m with
  | nil => simp [mapSet, mapGet]
  | cons p rest ih =>
      obtain ⟨k0, v0⟩ := p
      by_cases hk : k0 = k
      · subst hk; simp [mapSet, mapGet]
      · simp [mapSet, hk, mapGet, ih]

theorem mapGet_mapSet_other (m : List (String × Finding)) (k k' : String)
    (v : Finding) (h : k' ≠ k) : mapGet (mapSet m k v) k' = mapGet m k' := by
  induction m with
  | nil => simp [mapSet, mapGet, Ne.symm h]
  | cons p rest ih =>
      obtain ⟨k0, v0⟩ := p
      by_cases hk : k0 = k
      · subst hk; simp [mapSet, mapGet, Ne.symm h]
      · simp [mapSet, hk, mapGet, ih]

theorem mapGet_append_of_none (m m' : List (String × Finding)) (k : String)
    (h : mapGet m k = none) : mapGet (m ++ m') k = mapGet m' k := by
  induction m with
  | nil => simp
  | cons p rest ih =>
      obtain ⟨k0, v0⟩ := p
      by_cases hk : k0 = k
      · subst hk; simp [mapGet] at h
      · simp only [mapGet, if_neg hk] at h
        simpa [mapGet, hk] using ih h

/-! ### Lemmas about the aggregation fold -/

/-- Every binding produced by the fold pairs a finding with its own key. -/
def KeysMatch (m : List (String × Finding)) : Prop :=
  ∀ p ∈ m, p.1 = keyOf p.2

theorem keysMatch_mapSet (m : List (String × Finding)) (f : Finding)
    (h : KeysMatch m) : KeysMatch (mapSet m (keyOf f) f) := by
  intro p hp
  rcases mem_mapSet m (keyOf f) f p hp with h' | h'
  · exact h p h'
  · simp [h']

theorem keysMatch_aggStep (m : List (String × Finding)) (f : Finding)
    (h : KeysMatch m) : KeysMatch (aggStep m f) := by
  unfold aggStep
  cases mapGet m (keyOf f) with
  | none => exact keysMatch_mapSet m f h
  | some existing =>
      by_cases hc : f.confidence > existing.confidence
      · simpa [hc] using keysMatch_mapSet m f h
      · simpa [hc] using h

theorem keysMatch_foldl (l : List Finding) (m : List (String × Finding))
    (h : KeysMatch m) : KeysMatch (l.foldl aggStep m) := by
  induction l generalizing m with
  | nil => simpa using h
  | cons f rest ih => exact ih (aggStep m f) (keysMatch_aggStep m f h)

theorem nodup_keys_aggStep (m : List (String × Finding)) (f : Finding)
    (h : (m.map Prod.fst).Nodup) : ((aggStep m f).map Prod.fst).Nodup := by
  unfold aggStep
  cases mapGet m (keyOf f) with
  | none => exact nodup_keys_mapSet m (keyOf f) f h
  | some existing =>
      by_cases hc : f.confidence > existing.confidence
      · simpa [hc] using nodup_keys_mapSet m (keyOf f) f h
      · simpa [hc] using h

theorem nodup_keys_foldl (l : List Finding) (m : List (String × Finding))
    (h : (m.map Prod.fst).Nodup) : ((l.foldl aggStep m).map Prod.fst).Nodup := by
  induction l generalizing m with
  | nil => simpa using h
  | cons f rest ih => exact ih (aggStep m f) (nodup_keys_aggStep m f h)

theorem mapGet_aggStep_self (m : List (String × Finding)) (f : Finding) :
    ∃ v, mapGet (aggStep m f) (keyOf f) = some v ∧ f.confidence ≤ v.confidence := by
  unfold aggStep
  cases hget : mapGet m (keyOf f) with
  | none => exact ⟨f, mapGet_mapSet_self m (keyOf f) f, le_refl _⟩
  | some existing =>
      by_cases hc : f.confidence > existing.confidence
      · exact ⟨f, by simpa [hc] using mapGet_mapSet_self m (keyOf f) f, le_refl _⟩
      · exact ⟨existing, by simpa [hc] using hget, not_lt.mp hc⟩

theorem mapGet_aggStep_mono (m : List (String × Finding)) (g : Finding)
    (k : String) (v : Finding) (h : mapGet m k = some v) :
    ∃ v', mapGet (aggStep m g) k = some v' ∧ v.confidence ≤ v'.confidence := by
  rcases hget : mapGet m (keyOf g) with _ | existing
  · by_cases hk : k = keyOf g
    · subst hk; rw [hget] at h; cases h
    · refine ⟨v, ?_, le_refl _⟩
      simp [aggStep, hget, mapGet_mapSet_other m (keyOf g) k g hk, h]
  · by_cases hc : g.confidence > existing.confidence
    · by_cases hk : k = keyOf g
      · subst hk
        have hev : existing = v := by rw [hget] at h; exact Option.some.inj h
        subst hev
        refine ⟨g, ?_, le_of_lt hc⟩
        simp [aggStep, hget, hc, mapGet_mapSet_self]
      · refine ⟨v, ?_, le_refl _⟩
        simp [aggStep, hget, hc, mapGet_mapSet_other m (keyOf g) k g hk, h]
    · refine ⟨v, ?_, le_refl _⟩
      simp [aggStep, hget, hc, h]

theorem mapGet_foldl_mono (l : List Finding) (m : List (String × Finding))
    (k : String) (v : Finding) (h : mapGet m k = some v) :
    ∃ v', mapGet (l.foldl aggStep m) k = some v' ∧ v.confidence ≤ v'.confidence := by
  induction l generalizing m v with
  | nil => exact ⟨v, by simpa using h, le_refl _⟩
  | cons g rest ih =>
      obtain ⟨v1, hv1, hle1⟩ := mapGet_aggStep_mono m g k v h
      obtain ⟨v2, hv2, hle2⟩ := ih (aggStep m g) v1 hv1
      exact ⟨v2, by simpa using hv2, le_trans hle1 hle2⟩

theorem mapGet_foldl_of_mem (l : List Finding) (m : List (String × Finding))
    (g : Finding) (h : g ∈ l) :
    ∃ v, mapGet (l.foldl aggStep m) (keyOf g) = some v ∧
      g.confidence ≤ v.confidence := by
  induction l generalizing m with
  | nil => cases h
  | cons f rest ih =>
      rcases List.mem_cons.mp h with h' | h'
      · subst h'
        obtain ⟨v1, hv1, hle1⟩ := mapGet_aggStep_self m g
        obtain ⟨v2, hv2, hle2⟩ := mapGet_foldl_mono rest (aggStep m g) (keyOf g) v1 hv1
        exact ⟨v2, by simpa using hv2, le_trans hle1 hle2⟩
      · obtain ⟨v, hv, hle⟩ := ih (aggStep m f) h'
        exact ⟨v, by simpa using hv, hle⟩

theorem mem_aggStep (m : List (String × Finding)) (g : Finding)
    (p : String × Finding) (h : p ∈ aggStep m g) : p ∈ m ∨ p.2 = g := by
  rcases hget : mapGet m (keyOf g) with _ | existing
  · rw [show aggStep m g = mapSet m (keyOf g) g from by simp [aggStep, hget]] at h
    rcases mem_mapSet m (keyOf g) g p h with h' | h'
    · exact Or.inl h'
    · exact Or.inr (by simp [h'])
  · by_cases hc : g.confidence > existing.confidence
    · rw [show aggStep m g = mapSet m (keyOf g) g from by simp [aggStep, hget, hc]] at h
      rcases mem_mapSet m (keyOf g) g p h with h' | h'
      · exact Or.inl h'
      · exact Or.inr (by simp [h'])
    · rw [show aggStep m g = m from by simp [aggStep, hget, hc]] at h
      exact Or.inl h

theorem mem_foldl_values (l : List Finding) (m : List (String × Finding))
    (p : String × Finding) (h : p ∈ l.foldl aggStep m) :
    p ∈ m ∨ p.2 ∈ l := by
  induction l generalizing m with
  | nil => exact Or.inl (by simpa using h)
  | cons g rest ih =>
      rcases ih (aggStep m g) (by simpa using h) with h' | h'
      · rcases mem_aggStep m g p h' with h'' | h''
        · exact Or.inl h''
        · exact Or.inr (by simp [h''])
      · exact Or.inr (List.mem_cons_of_mem _ h')

theorem mapGet_of_mem_nodup (m : List (String × Finding)) (k : String)
    (v : Finding) (hnd : (m.map Prod.fst).Nodup) (h : (k, v) ∈ m) :
    mapGet m k = some v := by
  induction m with
  | nil => cases h
  | cons p rest ih =>
      obtain ⟨k0, v0⟩ := p
      simp only [List.map_cons, List.nodup_cons] at hnd
      rcases List.mem_cons.mp h with h' | h'
      · obtain ⟨hk, hv⟩ := Prod.mk.injEq .. ▸ h'
        cases h'
        simp [mapGet]
      · have hk : k0 ≠ k := by
          intro he
          subst he
          exact hnd.1 (List.mem_map.mpr ⟨(k0, v), h', rfl⟩)
        simp [mapGet, hk, ih hnd.2 h']

/-! ### Lemmas about the stable descending sort -/

/-- The comparator order of `sort((a, b) => b.confidence - a.confidence)`. -/
def ConfGE (a b : Finding) : Prop := b.confidence ≤ a.confidence

theorem insertByConf_perm (x : Finding) (l : List Finding) :
    List.Perm (insertByConf x l) (x :: l) := by
  induction l with
  | nil => simp [insertByConf]
  | cons y ys ih =>
      by_cases h : x.confidence < y.confidence
      · have h1 : insertByConf x (y :: ys) = y :: insertByConf x ys := by
          simp [insertByConf, h]
        rw [h1]
        exact List.Perm.trans (List.Perm.cons y ih) (List.Perm.swap x y ys)
      · simp [insertByConf, h]

theorem sortByConfDesc_perm (l : List Finding) :
    List.Perm (sortByConfDesc l) l := by
  induction l with
  | nil => simp [sortByConfDesc]
  | cons x xs ih =>
      exact List.Perm.trans (insertByConf_perm x (sortByConfDesc xs))
        (List.Perm.cons x ih)

theorem mem_insertByConf (x z : Finding) (l : List Finding)
    (h : z ∈ insertByConf x l) : z = x ∨ z ∈ l :=
  List.mem_cons.mp ((insertByConf_perm x l).mem_iff.mp h)

theorem pairwise_insertByConf (x : Finding) (l : List Finding)
    (h : List.Pairwise ConfGE l) : List.Pairwise ConfGE (insertByConf x l) := by
  induction l with
  | nil => simp [insertByConf, List.Pairwise]
  | cons y ys ih =>
      rcases List.pairwise_cons.mp h with ⟨hy, hys⟩
      by_cases hc : x.confidence < y.confidence
      · have htail := ih hys
        have hrw : insertByConf x (y :: ys) = y :: insertByConf x ys := by
          simp [insertByConf, hc]
        rw [hrw]
        refine List.pairwise_cons.mpr ⟨fun z hz => ?_, htail⟩
        rcases mem_insertByConf x z ys hz with h' | h'
        · subst h'; exact le_of_lt hc
        · exact hy z h'
      · have hrw : insertByConf x (y :: ys) = x :: y :: ys := by
          simp [insertByConf, hc]
        rw [hrw]
        refine List.pairwise_cons.mpr ⟨fun z hz => ?_, h⟩
        rcases List.mem_cons.mp hz with h' | h'
        · subst h'; exact not_lt.mp hc
        · exact le_trans (hy z h') (not_lt.mp hc)

theorem pairwise_sortByConfDesc (l : List Finding) :
    List.Pairwise ConfGE (sortByConfDesc l) := by
  induction l with
  | nil => simp [sortByConfDesc]
  | cons x xs ih => exact pairwise_insertByConf x (sortByConfDesc xs) ih

theorem insertByConf_of_pairwise (x : Finding) (l : List Finding)
    (h : List.Pairwise ConfGE (x :: l)) : insertByConf x l = x :: l := by
  cases l with
  | nil => simp [insertByConf]
  | cons y ys =>
      have hy : ConfGE x y := (List.pairwise_cons.mp h).1 y (by simp)
      simp [insertByConf, not_lt.mpr hy]

theorem sortByConfDesc_of_pairwise (l : List Finding)
    (h : List.Pairwise ConfGE l) : sortByConfDesc l = l := by
  induction l with
  | nil => rfl
  | cons x xs ih =>
      have htail := ih (List.pairwise_cons.mp h).2
      calc sortByConfDesc (x :: xs) = insertByConf x (sortByConfDesc xs) := rfl
        _ = insertByConf x xs := by rw [htail]
        _ = x :: xs := insertByConf_of_pairwise x xs h

/-- Folding the aggregation step over findings whose keys are fresh and
pairwise distinct appends one binding per finding, in order. -/
theorem foldl_aggStep_of_fresh (l : List Finding) (m : List (String × Finding))
    (hfresh : ∀ f ∈ l, mapGet m (keyOf f) = none)
    (hnd : (l.map keyOf).Nodup) :
    l.foldl aggStep m = m ++ l.map (fun f => (keyOf f, f)) := by
  induction l generalizing m with
  | nil => simp
  | cons f rest ih =>
      have hf : mapGet m (keyOf f) = none := hfresh f (by simp)
      have hstep : aggStep m f = m ++ [(keyOf f, f)] := by
        simp [aggStep, hf, mapSet_of_get_none m (keyOf f) f hf]
      simp only [List.map_cons, List.nodup_cons] at hnd
      have hfresh' : ∀ g ∈ rest, mapGet (m ++ [(keyOf f, f)]) (keyOf g) = none := by
        intro g hg
        have h1 : mapGet m (keyOf g) = none := hfresh g (List.mem_cons_of_mem _ hg)
        rw [mapGet_append_of_none m [(keyOf f, f)] (keyOf g) h1]
        have : keyOf f ≠ keyOf g := fun he =>
          hnd.1 (he ▸ List.mem_map.mpr ⟨g, hg, rfl⟩)
        simp [mapGet, this]
      calc (f :: rest).foldl aggStep m = rest.foldl aggStep (aggStep m f) := rfl
        _ = rest.foldl aggStep (m ++ [(keyOf f, f)]) := by rw [hstep]
        _ = (m ++ [(keyOf f, f)]) ++ rest.map (fun g => (keyOf g, g)) :=
            ih (m ++ [(keyOf f, f)]) hfresh' hnd.2
        _ = m ++ (f :: rest).map (fun g => (keyOf g, g)) := by simp

/-! ### Facts about the aggregator output -/

theorem aggregate_output_binding (X : List Finding) (f : Finding)
    (h : f ∈ aggregateFindings X) : (keyOf f, f) ∈ X.foldl aggStep [] := by
  have hvals : f ∈ (X.foldl aggStep []).map Prod.snd :=
    (sortByConfDesc_perm ((X.foldl aggStep []).map Prod.snd)).mem_iff.mp h
  obtain ⟨p, hp, hsnd⟩ := List.mem_map.mp hvals
  have hkm : KeysMatch (X.foldl aggStep []) :=
    keysMatch_foldl X [] (by intro p hp; cases hp)
  have hkey : p.1 = keyOf p.2 := hkm p hp
  have : p = (keyOf f, f) := by
    obtain ⟨p1, p2⟩ := p
    simp only at hsnd hkey
    rw [hsnd] at hkey
    rw [hkey, hsnd]
  rw [this] at hp
  exact hp

theorem aggregate_output_get (X : List Finding) (f : Finding)
    (h : f ∈ aggregateFindings X) :
    mapGet (X.foldl aggStep []) (keyOf f) = some f :=
  mapGet_of_mem_nodup _ _ _ (nodup_keys_foldl X [] (by simp))
    (aggregate_output_binding X f h)

/-- C2 (amended): what the aggregator actually guarantees about an
emitted finding — it is one of the inputs and its confidence is maximal
among all inputs at the same `(vuln_class, file, line)` coordinate.  The
spec's emission gate (`corroborated ∨ confidence ≥ 80`) does not exist
in `aggregateFindings`. -/
theorem aggregate_emits_input_with_max_confidence (X : List Finding)
    (f : Finding) (h : f ∈ aggregateFindings X) :
    f ∈ X ∧ ∀ g ∈ X, keyOf g = keyOf f → g.confidence ≤ f.confidence := by
  have hbind := aggregate_output_binding X f h
  constructor
  · rcases mem_foldl_values X [] (keyOf f, f) hbind with h' | h'
    · cases h'
    · exact h'
  · intro g hg hkey
    obtain ⟨v, hv, hle⟩ := mapGet_foldl_of_mem X [] g hg
    rw [hkey, aggregate_output_get X f h] at hv
    exact Option.some.inj hv ▸ hle

/-- A single uncorroborated finding with confidence 10 (used to refute
the claimed emission gate). -/
def lowLoneFinding : Finding :=
  { id := "f-low"
    scanner_id := "scanner.solana.account-validation"
    vuln_class := "missing_signer_check"
    severity := Severity.high
    confidence := 10
    file := "/repo/src/lib.rs"
    line := 42
    title := "Missing signer check"
    description := "d"
    evidence := "e" }

/-- C2 (counterexample): `aggregateFindings` emits a finding that is
neither corroborated (only one scanner contributed at its coordinate)
nor of confidence ≥ 80, so the claimed emission gate does not hold. -/
theorem aggregate_emission_gate_counterexample :
    lowLoneFinding ∈ aggregateFindings [lowLoneFinding] ∧
    ¬ specCorroborated [lowLoneFinding] lowLoneFinding ∧
    ¬ (80 ≤ lowLoneFinding.confidence) := by decide

/-- C2 (witness). -/
theorem aggregate_emits_input_with_max_confidence_witness :
    lowLoneFinding ∈ [lowLoneFinding] ∧
    ∀ g ∈ [lowLoneFinding], keyOf g = keyOf lowLoneFinding →
      g.confidence ≤ lowLoneFinding.confidence :=
  aggregate_emits_input_with_max_confidence [lowLoneFinding] lowLoneFinding
    (by decide)

/-- Scanner-A finding with confidence 70 for the corroboration-fusion
scenario of the spec (two scanners at one coordinate, 70 and 68). -/
def corrFindingA : Finding :=
  { id := "fa"
    scanner_id := "A"
    vuln_class := "missing_signer_check"
    severity := Severity.high
    confidence := 70
    file := "/repo/src/lib.rs"
    line := 42
    title := "Missing signer check"
    description := "da"
    evidence := "ea" }

/-- Scanner-B finding at the same `(vuln_class, file, line)` coordinate
with confidence 68. -/
def corrFindingB : Finding :=
  { id := "fb"
    scanner_id := "B"
    vuln_class := "missing_signer_check"
    severity := Severity.medium
    confidence := 68
    file := "/repo/src/lib.rs"
    line := 42
    title := "Missing signer check (b)"
    description := "db"
    evidence := "eb" }

/-- Does the finding's title end in the spec's "(corroborated)" marker?
(Stated over the title's character list so that it evaluates by
kernel reduction.) -/
def titleHasCorroboratedMarker (f : Finding) : Bool :=
  List.isSuffixOf "(corroborated)".data f.title.data

/-- C3 (counterexample): on the spec's own scenario the aggregator
emits the confidence-70 finding unchanged — confidence 70 (not
`min(99, 70+5) = 75`), `scanner_id` "A" (not the union string "A + B"),
and a title that does not end in "(corroborated)". -/
theorem aggregate_corroboration_fusion_counterexample :
    aggregateFindings [corrFindingA, corrFindingB] = [corrFindingA] ∧
    corrFindingA.confidence ≠ 75 ∧
    corrFindingA.scanner_id ≠ "A + B" ∧
    titleHasCorroboratedMarker corrFindingA = false := by decide

/-- C3 (amended): when two findings share a `(vuln_class, file, line)`
coordinate with confidences 70 and 68, the aggregator emits exactly one
finding for that coordinate — the confidence-70 input unchanged — in
either input order; no confidence boost, scanner-id union, or title
marker is applied. -/
theorem aggregate_keeps_higher_confidence_input (a b : Finding)
    (hk : keyOf a = keyOf b) (ha : a.confidence = 70) (hb : b.confidence = 68) :
    aggregateFindings [a, b] = [a] ∧ aggregateFindings [b, a] = [a] := by
  have h1 : aggStep [] a = [(keyOf a, a)] := by
    simp [aggStep, mapGet, mapSet]
  have h1b : aggStep [] b = [(keyOf b, b)] := by
    simp [aggStep, mapGet, mapSet]
  have h2 : aggStep [(keyOf a, a)] b = [(keyOf a, a)] := by
    simp [aggStep, mapGet, hk, ha, hb]
  have h2b : aggStep [(keyOf b, b)] a = [(keyOf a, a)] := by
    simp [aggStep, mapGet, mapSet, hk, ha, hb]
  constructor
  · show sortByConfDesc ((aggStep (aggStep [] a) b).map Prod.snd) = [a]
    rw [h1, h2]
    simp [sortByConfDesc, insertByConf]
  · show sortByConfDesc ((aggStep (aggStep [] b) a).map Prod.snd) = [a]
    rw [h1b, h2b]
    simp [sortByConfDesc, insertByConf]

/-- C3 (witness). -/
theorem aggregate_keeps_higher_confidence_input_witness :
    aggregateFindings [corrFindingA, corrFindingB] = [corrFindingA] ∧
    aggregateFindings [corrFindingB, corrFindingA] = [corrFindingA] :=
  aggregate_keeps_higher_confidence_input corrFindingA corrFindingB
    (by decide) (by decide) (by decide)

theorem aggregate_keys_nodup (X : List Finding) :
    ((aggregateFindings X).map keyOf).Nodup := by
  have hnd : ((X.foldl aggStep []).map Prod.fst).Nodup :=
    nodup_keys_foldl X [] (by simp)
  have hkm : KeysMatch (X.foldl aggStep []) :=
    keysMatch_foldl X [] (by intro p hp; cases hp)
  have hkeys : (X.foldl aggStep []).map Prod.fst =
      ((X.foldl aggStep []).map Prod.snd).map keyOf := by
    rw [List.map_map]
    exact List.map_congr_left hkm
  rw [hkeys] at hnd
  have hperm : List.Perm ((aggregateFindings X).map keyOf)
      (((X.foldl aggStep []).map Prod.snd).map keyOf) :=
    List.Perm.map keyOf (sortByConfDesc_perm _)
  exact hperm.nodup_iff.mpr hnd

theorem aggregate_pairwise (X : List Finding) :
    List.Pairwise ConfGE (aggregateFindings X) :=
  pairwise_sortByConfDesc _

/-- C9: the aggregator is idempotent — aggregating an already aggregated
finding list changes nothing. -/
theorem aggregate_idempotent (X : List Finding) :
    aggregateFindings (aggregateFindings X) = aggregateFindings X := by
  have hfold : (aggregateFindings X).foldl aggStep [] =
      (aggregateFindings X).map (fun f => (keyOf f, f)) := by
    have := foldl_aggStep_of_fresh (aggregateFindings X) []
      (by intro f hf; rfl) (aggregate_keys_nodup X)
    simpa using this
  show sortByConfDesc (((aggregateFindings X).foldl aggStep []).map Prod.snd) =
    aggregateFindings X
  rw [hfold, List.map_map]
  have hmap : (aggregateFindings X).map (Prod.snd ∘ fun f => (keyOf f, f)) =
      aggregateFindings X := by
    have : (Prod.snd ∘ fun f : Finding => (keyOf f, f)) = id := by
      funext f; rfl
    rw [this, List.map_id]
  rw [hmap]
  exact sortByConfDesc_of_pairwise _ (aggregate_pairwise X)

/-! ### Adversarial data model and the judge agent (src/agents/judge/agent.ts) -/

/-- `RedTeamAssessment` from `src/types.ts`. -/
structure RedTeamAssessment where
  exploitable : Bool
  exploit_code : Option String
  attack_steps : List String
  economic_impact : Option String
  confidence : Int
  reason : Option String
  sandbox_executed : Bool
  sandbox_exit_code : Option Int
  sandbox_stdout : Option String
deriving DecidableEq, Repr

/-- `BlueTeamAssessment.recommendation` from `src/types.ts`:
"confirmed" | "mitigated" | "infeasible". -/
inductive BlueRecommendation where
  | confirmed
  | mitigated
  | infeasible
deriving DecidableEq, Repr

/-- `BlueTeamAssessment` from `src/types.ts`. -/
structure BlueTeamAssessment where
  existing_mitigations : List String
  reachable : Bool
  reachability_reasoning : String
  env_protections : List String
  economically_feasible : Bool
  overall_risk_reduction : Int
  recommendation : BlueRecommendation
deriving DecidableEq, Repr

/-- `JudgeVerdict.verdict` from `src/types.ts`:
"confirmed" | "likely" | "disputed" | "false_positive". -/
inductive Verdict where
  | confirmed
  | likely
  | disputed
  | false_positive
deriving DecidableEq, Repr

/-- `JudgeVerdict` from `src/types.ts`. -/
structure JudgeVerdict where
  verdict : Verdict
  final_severity : Severity
  final_confidence : Int
  reasoning : String
  evidence_summary : String
deriving DecidableEq, Repr

/-- `JudgeContext` from src/agents/judge/agent.ts. -/
structure JudgeContext where
  finding : Finding
  redTeamAssessment : RedTeamAssessment
  blueTeamAssessment : BlueTeamAssessment
deriving DecidableEq, Repr

/-- `inferVerdict` from src/agents/judge/agent.ts (the deterministic
fallback inference rule). -/
def inferVerdict (context : JudgeContext) : Verdict :=
  if context.redTeamAssessment.sandbox_executed ∧
      context.redTeamAssessment.sandbox_exit_code = some 0 then
    Verdict.confirmed
  else if context.redTeamAssessment.exploitable ∧
      70 ≤ context.redTeamAssessment.confidence then
    Verdict.likely
  else if context.blueTeamAssessment.recommendation = BlueRecommendation.mitigated then
    Verdict.disputed
  else if context.blueTeamAssessment.recommendation = BlueRecommendation.infeasible then
    Verdict.false_positive
  else
    Verdict.likely

/-- `fallbackVerdict` from src/agents/judge/agent.ts. -/
def fallbackVerdict (context : JudgeContext) (reason : String) : JudgeVerdict :=
  { verdict := inferVerdict context
    final_severity := context.finding.severity
    final_confidence := context.finding.confidence
    reasoning := reason
    evidence_summary := "Fallback verdict due to LLM parse failure" }

/-- The reasoner's parsed JSON reply as consumed by `runJudgeAgent`.
A field is `none` when it is absent or not of the checked runtime type
(`VALID_VERDICTS.has(data.verdict as string)`, `typeof ... === "number"`,
`typeof ... === "string"`). -/
structure ParsedJudgeData where
  verdict : Option String
  final_severity : Option String
  final_confidence : Option Int
  reasoning : Option String
  evidence_summary : Option String
deriving DecidableEq, Repr

/-- The `VALID_VERDICTS` membership check of src/agents/judge/agent.ts,
returning the typed verdict on success. -/
def verdictOfString (s : String) : Option Verdict :=
  if s = "confirmed" then some Verdict.confirmed
  else if s = "likely" then some Verdict.likely
  else if s = "disputed" then some Verdict.disputed
  else if s = "false_positive" then some Verdict.false_positive
  else none

/-- The `VALID_SEVERITIES` membership check of src/agents/judge/agent.ts. -/
def severityOfString (s : String) : Option Severity :=
  if s = "CRITICAL" then some Severity.critical
  else if s = "HIGH" then some Severity.high
  else if s = "MEDIUM" then some Severity.medium
  else if s = "LOW" then some Severity.low
  else none

/-- `runJudgeAgent` from src/agents/judge/agent.ts, after the LLM call:
the reply (`parsed`, `none` when `parseJsonResponse` yielded no data) is
validated field by field; an unparseable reply falls back to
`fallbackVerdict` and an invalid verdict string falls back to
`inferVerdict`. -/
def runJudgeAgent (context : JudgeContext) (parsed : Option ParsedJudgeData)
    (parseError : String) : JudgeVerdict :=
  match parsed with
  | none =>
      fallbackVerdict context ("Failed to parse Judge response: " ++ parseError)
  | some data =>
      { verdict :=
          match data.verdict.bind verdictOfString with
          | some v => v
          | none => inferVerdict context
        final_severity :=
          match data.final_severity.bind severityOfString with
          | some s => s
          | none => context.finding.severity
        final_confidence :=
          match data.final_confidence with
          | some c => max 0 (min 100 c)
          | none => context.finding.confidence
        reasoning := data.reasoning.getD ""
        evidence_summary := data.evidence_summary.getD "" }

/-- C4: whenever the judge's reasoner fails to produce a parseable
verdict (no parseable reply at all, or a reply whose verdict field is
not a valid verdict string), the returned verdict is exactly the
deterministic inference rule over the red-team and blue-team
assessments. -/
theorem judge_fallback_is_deterministic_rule (context : JudgeContext)
    (parsed : Option ParsedJudgeData) (parseError : String)
    (h : parsed = none ∨
      ∃ d, parsed = some d ∧ d.verdict.bind verdictOfString = none) :
    (runJudgeAgent context parsed parseError).verdict =
      (if context.redTeamAssessment.sandbox_executed ∧
          context.redTeamAssessment.sandbox_exit_code = some 0 then
        Verdict.confirmed
      else if context.redTeamAssessment.exploitable ∧
          70 ≤ context.redTeamAssessment.confidence then
        Verdict.likely
      else if context.blueTeamAssessment.recommendation =
          BlueRecommendation.mitigated then
        Verdict.disputed
      else if context.blueTeamAssessment.recommendation =
          BlueRecommendation.infeasible then
        Verdict.false_positive
      else
        Verdict.likely) := by
  rcases h with h | ⟨d, hd, hv⟩
  · subst h
    rfl
  · subst hd
    show (match d.verdict.bind verdictOfString with
      | some v => v
      | none => inferVerdict context) = _
    rw [hv]
    rfl

/-- Spec scenario 4's judge context: red team exploitable with
confidence 85, no sandbox run, blue team recommends "confirmed". -/
def scenarioJudgeContext : JudgeContext :=
  { finding := lowLoneFinding
    redTeamAssessment :=
      { exploitable := true
        exploit_code := none
        attack_steps := ["step 1"]
        economic_impact := none
        confidence := 85
        reason := none
        sandbox_executed := false
        sandbox_exit_code := none
        sandbox_stdout := none }
    blueTeamAssessment :=
      { existing_mitigations := []
        reachable := true
        reachability_reasoning := "r"
        env_protections := []
        economically_feasible := true
        overall_risk_reduction := 0
        recommendation := BlueRecommendation.confirmed } }

/-- C4 (witness): on spec scenario 4 with an unavailable reasoner the
judge returns `likely`. -/
theorem judge_fallback_is_deterministic_rule_witness :
    (runJudgeAgent scenarioJudgeContext none "timeout").verdict =
      (if scenarioJudgeContext.redTeamAssessment.sandbox_executed ∧
          scenarioJudgeContext.redTeamAssessment.sandbox_exit_code = some 0 then
        Verdict.confirmed
      else if scenarioJudgeContext.redTeamAssessment.exploitable ∧
          70 ≤ scenarioJudgeContext.redTeamAssessment.confidence then
        Verdict.likely
      else if scenarioJudgeContext.blueTeamAssessment.recommendation =
          BlueRecommendation.mitigated then
        Verdict.disputed
      else if scenarioJudgeContext.blueTeamAssessment.recommendation =
          BlueRecommendation.infeasible then
        Verdict.false_positive
      else
        Verdict.likely) :=
  judge_fallback_is_deterministic_rule scenarioJudgeContext none "timeout"
    (Or.inl rfl)

/-! ### Adversarial pipeline verdict filter (src/orchestrator/adversarial.ts) -/

/-- `AdversarialResult` from `src/types.ts`: the three role outputs are
all optional (a debate that errors early produces a partial result). -/
structure AdversarialResult where
  finding : Finding
  red_team : Option RedTeamAssessment
  blue_team : Option BlueTeamAssessment
  judge : Option JudgeVerdict
deriving DecidableEq, Repr

/-- The `filter` predicate of `filterByVerdict`
(src/orchestrator/adversarial.ts lines 104-110):
`if (!r.judge) return true; return verdict === "confirmed" || verdict === "likely"`. -/
def verdictKeep (r : AdversarialResult) : Bool :=
  match r.judge with
  | none => true
  | some j =>
      decide (j.verdict = Verdict.confirmed ∨ j.verdict = Verdict.likely)

/-- The `map` body of `filterByVerdict`
(src/orchestrator/adversarial.ts lines 111-117): a judged result takes
the judge's final severity and confidence, an unjudged one passes the
finding through untouched. -/
def verdictEmit (r : AdversarialResult) : Finding :=
  match r.judge with
  | none => r.finding
  | some j =>
      { r.finding with
          severity := j.final_severity
          confidence := j.final_confidence }

/-- `filterByVerdict` from src/orchestrator/adversarial.ts lines 104-118. -/
def filterByVerdict (results : List AdversarialResult) : List Finding :=
  (results.filter verdictKeep).map verdictEmit

/-- C10: a result without a judge passes `filterByVerdict` with its
finding unchanged (original severity and confidence), and a result is
removed exactly when it has a judge whose verdict is neither
`confirmed` nor `likely`. -/
theorem filterByVerdict_passthrough (results : List AdversarialResult)
    (r : AdversarialResult) (hr : r ∈ results) :
    (r.judge = none →
      verdictEmit r = r.finding ∧ r.finding ∈ filterByVerdict results) ∧
    (verdictKeep r = false ↔
      ∃ j, r.judge = some j ∧ j.verdict ≠ Verdict.confirmed ∧
        j.verdict ≠ Verdict.likely) := by
  constructor
  · intro hj
    have hemit : verdictEmit r = r.finding := by simp [verdictEmit, hj]
    refine ⟨hemit, ?_⟩
    have hkeep : verdictKeep r = true := by simp [verdictKeep, hj]
    have hmem : r ∈ results.filter verdictKeep :=
      List.mem_filter.mpr ⟨hr, hkeep⟩
    have := List.mem_map.mpr ⟨r, hmem, hemit⟩
    exact this
  · cases hj : r.judge with
    | none =>
        simp [verdictKeep, hj]
    | some j =>
        constructor
        · intro hfalse
          refine ⟨j, rfl, ?_⟩
          by_contra hcon
          push_neg at hcon
          rcases Decidable.em (j.verdict = Verdict.confirmed) with hc | hc
          · simp [verdictKeep, hj, hc] at hfalse
          · have hl := hcon hc
            simp [verdictKeep, hj, hc, hl] at hfalse
        · rintro ⟨j', hj', hnc, hnl⟩
          have : j' = j := (Option.some.inj hj').symm
          subst this
          simp [verdictKeep, hj, hnc, hnl]

/-- A partial adversarial result whose debate errored before the judge
ran (only a red-team record is present). -/
def unjudgedResult : AdversarialResult :=
  { finding := lowLoneFinding
    red_team := some
      { exploitable := false
        exploit_code := none
        attack_steps := []
        economic_impact := none
        confidence := 0
        reason := some "Adversarial pipeline error: boom"
        sandbox_executed := false
        sandbox_exit_code := none
        sandbox_stdout := none }
    blue_team := none
    judge := none }

/-- C10 (witness). -/
theorem filterByVerdict_passthrough_witness :
    (unjudgedResult.judge = none →
      verdictEmit unjudgedResult = unjudgedResult.finding ∧
      unjudgedResult.finding ∈ filterByVerdict [unjudgedResult]) ∧
    (verdictKeep unjudgedResult = false ↔
      ∃ j, unjudgedResult.judge = some j ∧ j.verdict ≠ Verdict.confirmed ∧
        j.verdict ≠ Verdict.likely) :=
  filterByVerdict_passthrough [unjudgedResult] unjudgedResult (by decide)

/-! ### Review agent and patch pipeline
(src/agents/review/agent.ts, src/orchestrator/patch-pipeline.ts) -/

/-- JavaScript `line.split("\n")` on the character level. -/
def splitCharsOnNL : List Char → List (List Char)
  | [] => [[]]
  | c :: rest =>
      match splitCharsOnNL rest with
      | [] => [[]]
      | l :: ls => if c = '\n' then [] :: l :: ls else (c :: l) :: ls

/-- JavaScript `s.split("\n")`. -/
def jsSplitLines (s : String) : List String :=
  (splitCharsOnNL s.data).map (fun l => String.mk l)

/-- JavaScript `s.startsWith(p)` (ASCII payloads). -/
def jsStartsWith (s p : String) : Bool :=
  List.isPrefixOf p.data s.data

/-- Is `needle` a contiguous run inside the character list? -/
def charsInfix (needle : List Char) : List Char → Bool
  | [] => List.isPrefixOf needle []
  | c :: rest => List.isPrefixOf needle (c :: rest) || charsInfix needle rest

/-- JavaScript `s.includes(p)` for a nonempty needle. -/
def jsIncludes (s p : String) : Bool :=
  charsInfix p.data s.data

/-- JavaScript `s.slice(1)`. -/
def jsDropFirst (s : String) : String :=
  String.mk (s.data.drop 1)

/-- The "after" lines collected by the loop of `applyPatchToSource`
(src/agents/review/agent.ts lines 50-60): keep `+` lines (stripped),
drop `-`/`---`/`@@`/`diff` lines, keep everything else (stripping one
leading space from context lines). -/
def extractAfterLines (patchDiff : String) : List String :=
  (jsSplitLines patchDiff).foldr
    (fun line acc =>
      if jsStartsWith line "+" && !jsStartsWith line "+++" then
        jsDropFirst line :: acc
      else if !jsStartsWith line "-" && !jsStartsWith line "---" &&
          !jsStartsWith line "@@" && !jsStartsWith line "diff" then
        (if jsStartsWith line " " then jsDropFirst line else line) :: acc
      else acc)
    []

/-- `applyPatchToSource` from src/agents/review/agent.ts lines 44-63:
when the patch carries unified-diff markers, return the joined
extracted "after" lines (the original source is discarded and no
context line is checked against it); otherwise return the source. -/
def applyPatchToSource (source : String) (patchDiff : String) : String :=
  if jsIncludes patchDiff "@@" &&
      (jsIncludes patchDiff "---" || jsIncludes patchDiff "+++") then
    if (extractAfterLines patchDiff).length > 0 then
      String.intercalate "\n" (extractAfterLines patchDiff)
    else source
  else source

/-- `PatchProposal` from `src/types.ts`. -/
structure PatchProposal where
  finding_id : String
  file : String
  patch_diff : String
  explanation : String
  root_cause : String
  test_code : String
  breaking_changes : List String
deriving DecidableEq, Repr

/-- `ReviewIssue.severity` from `src/types.ts`: "error" | "warning" | "info". -/
inductive IssueSeverity where
  | error
  | warning
  | info
deriving DecidableEq, Repr

/-- `ReviewIssue` from `src/types.ts`. -/
structure ReviewIssue where
  severity : IssueSeverity
  description : String
deriving DecidableEq, Repr

/-- `PatchReview` from `src/types.ts`. -/
structure PatchReview where
  finding_id : String
  patch_proposal : PatchProposal
  approved : Bool
  issues : List ReviewIssue
  suggestions : List String
  exploit_retest_passed : Option Bool
  regression_check_passed : Option Bool
deriving DecidableEq, Repr

/-- The decision logic of `runReviewAgent`
(src/agents/review/agent.ts lines 66-152) after its LLM call:
`llmApproved`/`llmIssues`/`llmSuggestions` are the validated reply
fields, and `retestOracle` models `retestExploitInSandbox` applied to
the patched source (`none` = no sandbox or the retest threw).  The
retest only runs when the red team produced a non-empty
`exploit_code`; a `some false` retest overrides approval and appends
the error-severity retest issue. -/
def runReviewAgentDecision (adversarial : AdversarialResult)
    (patch : PatchProposal) (sourceCode : String) (llmApproved : Bool)
    (llmIssues : List ReviewIssue) (llmSuggestions : List String)
    (retestOracle : String → Option Bool) : PatchReview :=
  let exploitRetest : Option Bool :=
    match adversarial.red_team with
    | none => none
    | some red =>
        match red.exploit_code with
        | none => none
        | some ec =>
            if ec = "" then none
            else retestOracle (applyPatchToSource sourceCode patch.patch_diff)
  { finding_id := adversarial.finding.id
    patch_proposal := patch
    approved := if exploitRetest = some false then false else llmApproved
    issues := llmIssues ++
      (if exploitRetest = some false then
        [{ severity := IssueSeverity.error
           description :=
             "Exploit retest: Red Team exploit still succeeds against patched code." }]
      else [])
    suggestions := llmSuggestions
    exploit_retest_passed := exploitRetest
    regression_check_passed := none }

/-- `PatchResult.status` from `src/types.ts`. -/
inductive PatchStatus where
  | patched_and_verified
  | patched_needs_review
  | patch_rejected
  | no_patch
  | skipped
deriving DecidableEq, Repr

/-- `PatchResult` from `src/types.ts`. -/
structure PatchResult where
  adversarial : AdversarialResult
  patch : Option PatchProposal
  review : Option PatchReview
  status : PatchStatus
deriving DecidableEq, Repr

/-- `processOne` from src/orchestrator/patch-pipeline.ts lines 12-37,
with the patch agent's output passed as `patchOpt` and the review
agent's LLM-dependent inputs passed through to
`runReviewAgentDecision`. -/
def processOne (adversarial : AdversarialResult) (skipReview : Bool)
    (patchOpt : Option PatchProposal) (sourceCode : String)
    (llmApproved : Bool) (llmIssues : List ReviewIssue)
    (llmSuggestions : List String) (retestOracle : String → Option Bool) :
    PatchResult :=
  match adversarial.judge with
  | none => ⟨adversarial, none, none, PatchStatus.skipped⟩
  | some j =>
      if j.verdict ≠ Verdict.confirmed ∧ j.verdict ≠ Verdict.likely then
        ⟨adversarial, none, none, PatchStatus.skipped⟩
      else
        match patchOpt with
        | none => ⟨adversarial, none, none, PatchStatus.no_patch⟩
        | some patch =>
            if patch.patch_diff = "" then
              ⟨adversarial, none, none, PatchStatus.no_patch⟩
            else if skipReview then
              ⟨adversarial, some patch, none, PatchStatus.patched_needs_review⟩
            else
              let review := runReviewAgentDecision adversarial patch sourceCode
                llmApproved llmIssues llmSuggestions retestOracle
              if review.approved then
                ⟨adversarial, some patch, some review,
                  PatchStatus.patched_and_verified⟩
              else
                ⟨adversarial, some patch, some review,
                  PatchStatus.patch_rejected⟩

/-- Source file of the patch-safety scenario (two lines, neither of
which matches the patch's context). -/
def mismatchSource : String := "fn main()\nlet x = 1;"

/-- A unified diff whose single removal line does not occur in
`mismatchSource`. -/
def mismatchPatchDiff : String :=
  "--- a/x\n+++ b/x\n@@ -1,1 +1,1 @@\n-NOT IN SOURCE\n+evil()"

/-- An adversarial result eligible for the patch pipeline (judge verdict
`confirmed`, red team with exploit code). -/
def judgedAdversarial : AdversarialResult :=
  { finding := lowLoneFinding
    red_team := some
      { exploitable := true
        exploit_code := some "run_exploit()"
        attack_steps := []
        economic_impact := none
        confidence := 85
        reason := none
        sandbox_executed := false
        sandbox_exit_code := none
        sandbox_stdout := none }
    blue_team := none
    judge := some
      { verdict := Verdict.confirmed
        final_severity := Severity.high
        final_confidence := 90
        reasoning := "r"
        evidence_summary := "s" } }

/-- The patch proposal carrying `mismatchPatchDiff`. -/
def mismatchProposal : PatchProposal :=
  { finding_id := "f-low"
    file := "/repo/src/lib.rs"
    patch_diff := mismatchPatchDiff
    explanation := "e"
    root_cause := "rc"
    test_code := "t"
    breaking_changes := [] }

/-- C1 (counterexample): the patch's context line "NOT IN SOURCE" is not
a line of the source, yet `applyPatchToSource` replaces the source with
lines extracted from the diff alone (so the patch *is* applied), and
with an approving LLM review and a passing retest the pipeline returns
`patched_and_verified` — not `patch_rejected` — with no error issue. -/
theorem patch_context_mismatch_counterexample :
    "NOT IN SOURCE" ∉ jsSplitLines mismatchSource ∧
    applyPatchToSource mismatchSource mismatchPatchDiff = "+++ b/x\nevil()" ∧
    applyPatchToSource mismatchSource mismatchPatchDiff ≠ mismatchSource ∧
    (processOne judgedAdversarial false (some mismatchProposal)
        mismatchSource true [] [] (fun _ => some true)).status =
      PatchStatus.patched_and_verified ∧
    (runReviewAgentDecision judgedAdversarial mismatchProposal
        mismatchSource true [] [] (fun _ => some true)).issues = [] := by
  decide

/-- C1 (amended): the review agent's `applyPatchToSource` performs no
context verification — whenever the diff carries unified-diff markers
and contributes at least one extracted line, the "patched" source is
the joined extracted lines of the diff, identical for any two source
files — and for an eligible, non-empty, reviewed proposal the patch
status follows the review approval alone (`patched_and_verified` when
approved, `patch_rejected` otherwise), never a context check. -/
theorem review_applies_patch_without_context_verification
    (src1 src2 : String) (adversarial : AdversarialResult)
    (j : JudgeVerdict) (patch : PatchProposal) (llmApproved : Bool)
    (llmIssues : List ReviewIssue) (llmSuggestions : List String)
    (retestOracle : String → Option Bool)
    (hmark : (jsIncludes patch.patch_diff "@@" &&
      (jsIncludes patch.patch_diff "---" ||
        jsIncludes patch.patch_diff "+++")) = true)
    (hlines : extractAfterLines patch.patch_diff ≠ [])
    (hjudge : adversarial.judge = some j)
    (hv : j.verdict = Verdict.confirmed ∨ j.verdict = Verdict.likely)
    (hpd : patch.patch_diff ≠ "") :
    applyPatchToSource src1 patch.patch_diff =
      String.intercalate "\n" (extractAfterLines patch.patch_diff) ∧
    applyPatchToSource src1 patch.patch_diff =
      applyPatchToSource src2 patch.patch_diff ∧
    (processOne adversarial false (some patch) src1 llmApproved llmIssues
        llmSuggestions retestOracle).status =
      (if (runReviewAgentDecision adversarial patch src1 llmApproved
          llmIssues llmSuggestions retestOracle).approved then
        PatchStatus.patched_and_verified
      else PatchStatus.patch_rejected) := by
  have hlen : (extractAfterLines patch.patch_diff).length > 0 :=
    List.length_pos.mpr hlines
  have happly : ∀ s : String, applyPatchToSource s patch.patch_diff =
      String.intercalate "\n" (extractAfterLines patch.patch_diff) := by
    intro s
    unfold applyPatchToSource
    rw [if_pos hmark, if_pos hlen]
  refine ⟨happly src1, by rw [happly src1, happly src2], ?_⟩
  have hcond : ¬ (j.verdict ≠ Verdict.confirmed ∧ j.verdict ≠ Verdict.likely) := by
    rcases hv with hv | hv
    · intro hc; exact hc.1 hv
    · intro hc; exact hc.2 hv
  by_cases happr : (runReviewAgentDecision adversarial patch src1 llmApproved
      llmIssues llmSuggestions retestOracle).approved
  · simp [processOne, hjudge, hcond, hpd, happr]
  · simp [processOne, hjudge, hcond, hpd, happr]

/-- C1 (witness). -/
theorem review_applies_patch_without_context_verification_witness :
    applyPatchToSource mismatchSource mismatchPatchDiff =
      String.intercalate "\n" (extractAfterLines mismatchPatchDiff) ∧
    applyPatchToSource mismatchSource mismatchPatchDiff =
      applyPatchToSource "other" mismatchPatchDiff ∧
    (processOne judgedAdversarial false (some mismatchProposal)
        mismatchSource true [] [] (fun _ => some true)).status =
      (if (runReviewAgentDecision judgedAdversarial mismatchProposal
          mismatchSource true [] [] (fun _ => some true)).approved then
        PatchStatus.patched_and_verified
      else PatchStatus.patch_rejected) :=
  review_applies_patch_without_context_verification mismatchSource "other"
    judgedAdversarial
    { verdict := Verdict.confirmed
      final_severity := Severity.high
      final_confidence := 90
      reasoning := "r"
      evidence_summary := "s" }
    mismatchProposal true [] [] (fun _ => some true)
    (by decide) (by decide) rfl (Or.inl rfl) (by decide)

/-! ### Trigger daemon (src/orchestrator/daemon.ts) -/

/-- Daemon `RunStatus`: "queued" | "running" | "completed" | "failed". -/
inductive DaemonRunStatus where
  | queued
  | running
  | completed
  | failed
deriving DecidableEq, Repr

/-- Daemon `RunRecord` (src/orchestrator/daemon.ts lines 18-32), as far
as `handleTrigger` populates it. -/
structure RunRecord where
  id : String
  target_path : String
  mode : String
  trigger : String
  base_ref : Option String
  head_ref : Option String
  changed_files : Option (List String)
  status : DaemonRunStatus
  created_at : String
deriving DecidableEq, Repr

/-- `TriggerRequest` (src/orchestrator/daemon.ts lines 9-16); a field is
`none` when absent from the JSON body. -/
structure TriggerPayload where
  target_path : Option String
  mode : Option String
  trigger : Option String
  base_ref : Option String
  head_ref : Option String
  changed_files : Option (List String)
deriving DecidableEq, Repr

/-- JavaScript truthiness of an optional string (absent and "" are
falsy). -/
def jsTruthy (o : Option String) : Bool :=
  match o with
  | none => false
  | some s => !(s == "")

/-- JavaScript `value?.trim() || undefined`. -/
def jsTrimToUndef (o : Option String) : Option String :=
  match o with
  | none => none
  | some s => if s.trim = "" then none else some s.trim

/-- `isPathAllowed` from src/orchestrator/daemon.ts lines 255-260:
no allow-list (or an empty one) admits everything, otherwise the
canonical target must equal an entry or start with `entry + path.sep`
(`path.sep` is "/" on the POSIX hosts the daemon targets). -/
def isPathAllowed (targetPath : String) (allowedPaths : Option (List String)) :
    Bool :=
  match allowedPaths with
  | none => true
  | some allowed =>
      if allowed.length = 0 then true
      else allowed.any fun a =>
        (targetPath == a) || jsStartsWith targetPath (a ++ "/")

/-- Stable ascending insertion by `new Date(created_at).getTime()`
(`timeOf` models the date parse) — models the sort inside
`trimRunHistory`. -/
def insertByTimeAsc (timeOf : String → Int) (x : RunRecord) :
    List RunRecord → List RunRecord
  | [] => [x]
  | y :: ys =>
      if timeOf x.created_at ≤ timeOf y.created_at then x :: y :: ys
      else y :: insertByTimeAsc timeOf x ys

/-- Stable sort used by `trimRunHistory` (oldest first). -/
def sortByTimeAsc (timeOf : String → Int) : List RunRecord → List RunRecord
  | [] => []
  | x :: xs => insertByTimeAsc timeOf x (sortByTimeAsc timeOf xs)

/-- `MAX_STORED_RUNS` from src/orchestrator/daemon.ts line 45. -/
def MAX_STORED_RUNS : Nat := 200

/-- `trimRunHistory` from src/orchestrator/daemon.ts lines 49-60: when
more than `MAX_STORED_RUNS` runs are stored, delete the oldest
(by `created_at`) until the bound holds.  The `Map` of runs is modelled
by its insertion-ordered value list. -/
def trimRunHistory (timeOf : String → Int) (runs : List RunRecord) :
    List RunRecord :=
  if runs.length ≤ MAX_STORED_RUNS then runs
  else
    let removeCount := runs.length - MAX_STORED_RUNS
    let toRemove := (sortByTimeAsc timeOf runs).take removeCount
    runs.filter fun r => !(toRemove.any fun o => o.id == r.id)

/-- Stable descending insertion by `created_at` time — models the sort
inside `handleListRuns` (newest first). -/
def insertByTimeDesc (timeOf : String → Int) (x : RunRecord) :
    List RunRecord → List RunRecord
  | [] => [x]
  | y :: ys =>
      if timeOf y.created_at ≤ timeOf x.created_at then x :: y :: ys
      else y :: insertByTimeDesc timeOf x ys

/-- `handleListRuns` from src/orchestrator/daemon.ts lines 234-239: the
stored runs ordered newest first. -/
def handleListRuns (timeOf : String → Int) : List RunRecord → List RunRecord
  | [] => []
  | x :: xs => insertByTimeDesc timeOf x (handleListRuns timeOf xs)

/-- The daemon's JSON reply to `POST /trigger`: an error body with its
HTTP status, or the 202 acceptance echoing the queued run id. -/
inductive TriggerResponse where
  | err (status : Nat) (code : String)
  | accepted (run_id : String)
deriving DecidableEq, Repr

/-- `handleTrigger` from src/orchestrator/daemon.ts lines 135-218, after
JSON body parsing (body-size and JSON errors are answered even earlier
and also leave the run map untouched).  `resolveTarget` models
`validateTargetPath` (resolve + realpath + directory stat, `Except` on
failure); `newId` models `crypto.randomUUID()` and `now` the creation
timestamp.  Returns the response and the updated run list. -/
def handleTrigger (resolveTarget : String → Except String String)
    (timeOf : String → Int) (allowedPaths : Option (List String))
    (runs : List RunRecord) (payload : TriggerPayload)
    (newId now : String) : TriggerResponse × List RunRecord :=
  if !(jsTruthy payload.target_path) then
    (TriggerResponse.err 400 "missing_target_path", runs)
  else
    let mode := payload.mode.getD "full"
    if mode ≠ "full" ∧ mode ≠ "diff" then
      (TriggerResponse.err 400 "invalid_mode", runs)
    else if jsTruthy payload.head_ref && !(jsTruthy payload.base_ref) then
      (TriggerResponse.err 400 "head_ref_requires_base_ref", runs)
    else
      match resolveTarget (payload.target_path.getD "") with
      | Except.error _ =>
          (TriggerResponse.err 400 "invalid_target_path", runs)
      | Except.ok targetPath =>
          if !(isPathAllowed targetPath allowedPaths) then
            (TriggerResponse.err 403 "path_not_allowed", runs)
          else
            let record : RunRecord :=
              { id := newId
                target_path := targetPath
                mode := mode
                trigger := payload.trigger.getD "manual"
                base_ref := jsTrimToUndef payload.base_ref
                head_ref := jsTrimToUndef payload.head_ref
                changed_files := payload.changed_files
                status := DaemonRunStatus.queued
                created_at := now }
            (TriggerResponse.accepted newId,
              trimRunHistory timeOf (runs ++ [record]))

/-- C7: a `/trigger` request that passes every earlier validation but
whose canonicalized target path is neither equal to nor strictly under
any entry of a configured (non-empty) allow-list is answered 403
`path_not_allowed`, no run record is created, and the stored run list —
hence the `GET /runs` view — is unchanged. -/
theorem trigger_disallowed_path_rejected
    (resolveTarget : String → Except String String) (timeOf : String → Int)
    (allowed : List String) (runs : List RunRecord)
    (payload : TriggerPayload) (newId now targetPath : String)
    (htp : jsTruthy payload.target_path = true)
    (hmode : payload.mode.getD "full" = "full" ∨ payload.mode.getD "full" = "diff")
    (hrefs : (jsTruthy payload.head_ref && !(jsTruthy payload.base_ref)) = false)
    (hresolve : resolveTarget (payload.target_path.getD "") =
      Except.ok targetPath)
    (hne : allowed ≠ [])
    (hdisallowed : ∀ a ∈ allowed,
      targetPath ≠ a ∧ jsStartsWith targetPath (a ++ "/") = false) :
    isPathAllowed targetPath (some allowed) = false ∧
    handleTrigger resolveTarget timeOf (some allowed) runs payload newId now =
      (TriggerResponse.err 403 "path_not_allowed", runs) ∧
    handleListRuns timeOf
      (handleTrigger resolveTarget timeOf (some allowed) runs payload
        newId now).2 = handleListRuns timeOf runs := by
  have hlen : ¬ allowed.length = 0 := by
    intro h
    exact hne (List.length_eq_zero.mp h)
  have hred : isPathAllowed targetPath (some allowed) =
      allowed.any (fun a =>
        (targetPath == a) || jsStartsWith targetPath (a ++ "/")) := by
    simp [isPathAllowed, hlen]
  have hfalse : isPathAllowed targetPath (some allowed) = false := by
    rw [hred]
    cases hb : allowed.any (fun a =>
        (targetPath == a) || jsStartsWith targetPath (a ++ "/")) with
    | false => rfl
    | true =>
        obtain ⟨a, ha, hp⟩ := List.any_eq_true.mp hb
        obtain ⟨h1, h2⟩ := hdisallowed a ha
        have hp' : (targetPath == a) = true ∨
            jsStartsWith targetPath (a ++ "/") = true := by
          simpa using hp
        rcases hp' with hp' | hp'
        · exact absurd (by simpa using hp') h1
        · simp [hp'] at h2
  have hcond : ¬ (payload.mode.getD "full" ≠ "full" ∧
      payload.mode.getD "full" ≠ "diff") := by
    rcases hmode with hm | hm
    · intro hc; exact hc.1 hm
    · intro hc; exact hc.2 hm
  have hmain : handleTrigger resolveTarget timeOf (some allowed) runs payload
      newId now = (TriggerResponse.err 403 "path_not_allowed", runs) := by
    simp [handleTrigger, htp, hcond, hrefs, hresolve, hfalse]
  exact ⟨hfalse, hmain, by rw [hmain]⟩

/-- The spec-scenario trigger payload: `target_path = "/etc"` with no
other fields. -/
def etcPayload : TriggerPayload :=
  { target_path := some "/etc"
    mode := none
    trigger := none
    base_ref := none
    head_ref := none
    changed_files := none }

/-- C7 (witness): allow-list `["/home/work"]`, target `/etc` (already
canonical), empty run store. -/
theorem trigger_disallowed_path_rejected_witness :
    isPathAllowed "/etc" (some ["/home/work"]) = false ∧
    handleTrigger (fun s => Except.ok s) (fun _ => 0) (some ["/home/work"])
      [] etcPayload "id-1" "2026-01-01T00:00:00.000Z" =
      (TriggerResponse.err 403 "path_not_allowed", []) ∧
    handleListRuns (fun _ => 0)
      (handleTrigger (fun s => Except.ok s) (fun _ => 0)
        (some ["/home/work"]) [] etcPayload "id-1"
        "2026-01-01T00:00:00.000Z").2 =
      handleListRuns (fun _ => 0) [] :=
  trigger_disallowed_path_rejected (fun s => Except.ok s) (fun _ => 0)
    ["/home/work"] [] etcPayload "id-1" "2026-01-01T00:00:00.000Z" "/etc"
    (by decide) (Or.inl rfl) (by decide) rfl (by decide) (by decide)

/-! ### Diff resolver and diff scan
(src/orchestrator/git-diff.ts, src/orchestrator/run-scan.ts) -/

/-- `runGit` from src/orchestrator/git-diff.ts lines 27-37: a failed
`git` subprocess (`git` oracle returns the failure detail) is rethrown
as `git command failed (<args>): <detail>`.  Unlike the threat-model
store's missing-safe `runGit`, this one *throws*. -/
def runGitDiff (git : List String → Except String String)
    (args : List String) : Except String String :=
  match git args with
  | Except.ok out => Except.ok out
  | Except.error detail =>
      Except.error ("git command failed (" ++ String.intercalate " " args ++
        "): " ++ detail)

/-- `parseLines` from src/orchestrator/git-diff.ts lines 20-25 (the
split on `\r?\n` agrees with a `\n` split followed by `trim`). -/
def parseLines (stdout : String) : List String :=
  ((jsSplitLines stdout).map String.trim).filter fun l => !(l == "")

/-- First-occurrence deduplication, as `[...new Set(list)]`. -/
def jsSetDedupAux (seen : List String) : List String → List String
  | [] => []
  | x :: xs =>
      if seen.contains x then jsSetDedupAux seen xs
      else x :: jsSetDedupAux (x :: seen) xs

/-- JavaScript `[...new Set(list)]`. -/
def jsSetDedup (l : List String) : List String := jsSetDedupAux [] l

/-- `toExistingAbsolutePaths` from src/orchestrator/git-diff.ts lines
39-52: resolve each path against the root (`resolvePath` oracle models
`path.resolve`) and keep those whose `stat` reports a file
(`statIsFile` oracle; a throwing stat counts as `false`). -/
def toExistingAbsolutePaths (resolvePath : String → String → String)
    (statIsFile : String → Bool) (rootPath : String)
    (filePaths : List String) : List String :=
  (filePaths.map (resolvePath rootPath)).filter statIsFile

/-- `GitDiffOptions` from src/orchestrator/git-diff.ts lines 8-12. -/
structure GitDiffOptions where
  baseRef : Option String
  headRef : Option String
  includeUntracked : Option Bool
deriving DecidableEq, Repr

/-- `ResolvedDiffSelection` from src/orchestrator/git-diff.ts lines 14-18. -/
structure ResolvedDiffSelection where
  baseRef : Option String
  headRef : Option String
  changedFiles : List String
deriving DecidableEq, Repr

/-- The `git diff` argument list built by `resolveDiffSelection`
(src/orchestrator/git-diff.ts lines 69-72). -/
def trackedArgsOf (baseRef headRef : Option String) : List String :=
  match baseRef with
  | some b =>
      ["diff", "--name-only", "--diff-filter=ACMR",
        b ++ ".." ++ headRef.getD "HEAD"]
  | none => ["diff", "--name-only", "--diff-filter=ACMR", "HEAD"]

/-- `resolveDiffSelection` from src/orchestrator/git-diff.ts lines
55-83.  Any `runGit` failure propagates as an `Except.error` (the
function has no catch). -/
def resolveDiffSelection (git : List String → Except String String)
    (resolvePath : String → String → String) (statIsFile : String → Bool)
    (rootPath : String) (options : GitDiffOptions) :
    Except String ResolvedDiffSelection :=
  let baseRef := jsTrimToUndef options.baseRef
  let headRef := jsTrimToUndef options.headRef
  if baseRef = none ∧ headRef ≠ none then
    Except.error "headRef requires baseRef"
  else
    let includeUntracked := options.includeUntracked.getD true
    match runGitDiff git (trackedArgsOf baseRef headRef) with
    | Except.error e => Except.error e
    | Except.ok trackedOut =>
        match (if includeUntracked then
            runGitDiff git ["ls-files", "--others", "--exclude-standard"]
          else Except.ok "") with
        | Except.error e => Except.error e
        | Except.ok untrackedOut =>
            let tracked := parseLines trackedOut
            let untracked :=
              if includeUntracked then parseLines untrackedOut else []
            let unique := jsSetDedup (tracked ++ untracked)
            Except.ok
              { baseRef := baseRef
                headRef :=
                  match headRef with
                  | some h => some h
                  | none => if baseRef.isSome then some "HEAD" else none
                changedFiles :=
                  toExistingAbsolutePaths resolvePath statIsFile rootPath
                    unique }

/-- `DiffScanOptions` from src/orchestrator/run-scan.ts lines 9-13. -/
structure DiffScanOptions where
  baseRef : Option String
  headRef : Option String
  changedFiles : Option (List String)
deriving DecidableEq, Repr

/-- `normalizeChangedFiles` from src/orchestrator/run-scan.ts lines
15-29 (resolve each explicit path, keep files, first-occurrence set). -/
def normalizeChangedFiles (resolvePath : String → String → String)
    (statIsFile : String → Bool) (rootPath : String)
    (changedFiles : List String) : List String :=
  jsSetDedup ((changedFiles.map (resolvePath rootPath)).filter statIsFile)

/-- The slice of a `ScanResult` that `runDiffScan` determines from the
scope resolution (threat model and timestamps are external effects). -/
structure ScanResultModel where
  changed_files : List String
  agent_run_ids : List String
  findings : List Finding
deriving DecidableEq, Repr

/-- `runDiffScan` from src/orchestrator/run-scan.ts lines 53-109:
explicit `changedFiles` are normalized, otherwise the git diff
selection is resolved — with *no* catch, so a git failure rejects the
whole scan.  An empty scope short-circuits to an empty result; a
non-empty scope dispatches (`dispatchFindings`/`agentRunIds` model the
dispatcher's output) and keeps aggregated findings inside the changed
set (`resolveAbs` models the single-argument `path.resolve`). -/
def runDiffScanModel (git : List String → Except String String)
    (resolvePath : String → String → String) (resolveAbs : String → String)
    (statIsFile : String → Bool) (dispatchFindings : List Finding)
    (agentRunIds : List String) (rootPath : String)
    (options : DiffScanOptions) : Except String ScanResultModel :=
  let resolvedE : Except String ResolvedDiffSelection :=
    match options.changedFiles with
    | some files =>
        Except.ok
          { baseRef := options.baseRef
            headRef := options.headRef
            changedFiles :=
              normalizeChangedFiles resolvePath statIsFile rootPath files }
    | none =>
        resolveDiffSelection git resolvePath statIsFile rootPath
          { baseRef := options.baseRef
            headRef := options.headRef
            includeUntracked := some true }
  match resolvedE with
  | Except.error e => Except.error e
  | Except.ok resolved =>
      if resolved.changedFiles.length = 0 then
        Except.ok
          { changed_files := resolved.changedFiles
            agent_run_ids := []
            findings := [] }
      else
        Except.ok
          { changed_files := resolved.changedFiles
            agent_run_ids := agentRunIds
            findings :=
              (aggregateFindings dispatchFindings).filter fun f =>
                (resolved.changedFiles.map resolveAbs).contains
                  (resolveAbs f.file) }

/-- A git oracle in which every invocation fails (git absent). -/
def failingGit : List String → Except String String :=
  fun _ => Except.error "spawn git ENOENT"

/-- C8 (counterexample): with git failing, the diff scan does not
degrade to an empty scope — `resolveDiffSelection` and `runDiffScan`
both reject with the propagated git error, so no completed result with
zero findings exists. -/
theorem diff_scan_git_failure_counterexample :
    resolveDiffSelection failingGit (fun _ f => f) (fun _ => true) "/repo"
        { baseRef := none, headRef := none, includeUntracked := some true } =
      Except.error
        "git command failed (diff --name-only --diff-filter=ACMR HEAD): spawn git ENOENT" ∧
    runDiffScanModel failingGit (fun _ f => f) (fun s => s) (fun _ => true)
        [] [] "/repo"
        { baseRef := none, headRef := none, changedFiles := none } =
      Except.error
        "git command failed (diff --name-only --diff-filter=ACMR HEAD): spawn git ENOENT" :=
  ⟨rfl, rfl⟩

/-- C8 (amended): when no explicit changed-file list is given and the
git invocation for the tracked diff fails, `runDiffScan` fails with the
propagated `git command failed` error — the scan does not degrade to an
empty scope and no completed zero-finding result is produced (the
daemon's `executeRun` then marks the run `failed`). -/
theorem diff_scan_git_failure_propagates
    (git : List String → Except String String)
    (resolvePath : String → String → String) (resolveAbs : String → String)
    (statIsFile : String → Bool) (dispatchFindings : List Finding)
    (agentRunIds : List String) (rootPath : String)
    (options : DiffScanOptions) (detail : String)
    (hnc : options.changedFiles = none)
    (hrefs : ¬ (jsTrimToUndef options.baseRef = none ∧
      jsTrimToUndef options.headRef ≠ none))
    (hgit : git (trackedArgsOf (jsTrimToUndef options.baseRef)
        (jsTrimToUndef options.headRef)) = Except.error detail) :
    runDiffScanModel git resolvePath resolveAbs statIsFile dispatchFindings
        agentRunIds rootPath options =
      Except.error ("git command failed (" ++ String.intercalate " "
        (trackedArgsOf (jsTrimToUndef options.baseRef)
          (jsTrimToUndef options.headRef)) ++ "): " ++ detail) := by
  simp [runDiffScanModel, hnc, resolveDiffSelection, hrefs, runGitDiff, hgit]

/-- C8 (witness). -/
theorem diff_scan_git_failure_propagates_witness :
    runDiffScanModel failingGit (fun _ f => f) (fun s => s) (fun _ => true)
        [] [] "/repo"
        { baseRef := none, headRef := none, changedFiles := none } =
      Except.error ("git command failed (" ++ String.intercalate " "
        (trackedArgsOf (jsTrimToUndef (none : Option String))
          (jsTrimToUndef (none : Option String))) ++ "): " ++
        "spawn git ENOENT") :=
  diff_scan_git_failure_propagates failingGit (fun _ f => f) (fun s => s)
    (fun _ => true) [] [] "/repo"
    { baseRef := none, headRef := none, changedFiles := none }
    "spawn git ENOENT" rfl (by simp [jsTrimToUndef]) rfl

/-! ### Agent dispatcher (src/orchestrator/dispatcher.ts) -/

/-- `readPositiveIntFromEnv` from src/orchestrator/dispatcher.ts lines
29-39.  `raw` is the environment variable (`none` = unset; the empty
string is also falsy), `numValue` models JavaScript `Number(raw)`
(`none` = `NaN`/infinite, so `Number.isFinite` fails), and a
non-positive value falls back; otherwise `Math.floor` is returned. -/
def readPositiveIntFromEnv (numValue : String → Option ℚ)
    (raw : Option String) (fallback : Int) : Int :=
  match raw with
  | none => fallback
  | some s =>
      if s = "" then fallback
      else
        match numValue s with
        | none => fallback
        | some q => if q ≤ 0 then fallback else Int.floor q

theorem readPositiveIntFromEnv_nonneg (numValue : String → Option ℚ)
    (raw : Option String) (fallback : Int) (hf : 0 ≤ fallback) :
    0 ≤ readPositiveIntFromEnv numValue raw fallback := by
  unfold readPositiveIntFromEnv
  cases raw with
  | none => exact hf
  | some s =>
      by_cases hs : s = ""
      · simp [hs, hf]
      · cases hn : numValue s with
        | none => simp [hs, hn, hf]
        | some q =>
            by_cases hq : q ≤ 0
            · simp [hs, hn, hq, hf]
            · simp only [hs, hn, hq, if_neg, if_false]
              have : (0 : ℚ) ≤ q := le_of_lt (lt_of_not_le hq)
              simpa [hs, hq] using Int.le_floor.mpr (by exact_mod_cast this)

/-- The scheduler state of `dispatchScanners`
(src/orchestrator/dispatcher.ts lines 95-153): the FIFO `queue` of
task indices still to launch, the in-flight `running` set, and the
order in which tasks have been started so far. -/
structure DispatchState where
  queue : List Nat
  running : List Nat
  started : List Nat
deriving DecidableEq, Repr

/-- The dispatcher before its loop: `queue = tasks.map((_, i) => i)`,
nothing running, nothing started. -/
def initDispatchState (n : Nat) : DispatchState :=
  ⟨List.range n, [], []⟩

/-- One event-loop step of `dispatchScanners`: either the inner
`while (queue.length > 0 && running.size < maxConcurrentAgents)` body
starts the head of the queue (`runTask(queue.shift())`), or an
in-flight task settles and its `finally` removes it from `running`.
Every interleaving of the real cooperative scheduler is a trace of this
relation. -/
inductive DispatchStep (maxConcurrent : Int) :
    DispatchState → DispatchState → Prop where
  | start (i : Nat) (rest : List Nat) (s : DispatchState)
      (hq : s.queue = i :: rest)
      (hcap : (s.running.length : Int) < maxConcurrent) :
      DispatchStep maxConcurrent s
        ⟨rest, s.running ++ [i], s.started ++ [i]⟩
  | finish (i : Nat) (s : DispatchState) (hmem : i ∈ s.running) :
      DispatchStep maxConcurrent s
        ⟨s.queue, s.running.erase i, s.started⟩

/-- States reachable by `dispatchScanners` on `n` tasks. -/
inductive DispatchReachable (maxConcurrent : Int) (n : Nat) :
    DispatchState → Prop where
  | init : DispatchReachable maxConcurrent n (initDispatchState n)
  | step (s s' : DispatchState) :
      DispatchReachable maxConcurrent n s →
      DispatchStep maxConcurrent s s' →
      DispatchReachable maxConcurrent n s'

/-- C5: with `MAX_CONCURRENT = readPositiveIntFromEnv(HYDRA_MAX_CONCURRENT_AGENTS, 3)`
(default 3 when the variable is unset), every reachable dispatcher
state has at most `MAX_CONCURRENT` running tasks, and tasks are started
in queue (FIFO) order: the started list followed by the remaining queue
is always the original task order. -/
theorem dispatcher_bound_and_fifo (numValue : String → Option ℚ)
    (env : Option String) (n : Nat) (s : DispatchState)
    (h : DispatchReachable (readPositiveIntFromEnv numValue env 3) n s) :
    (s.running.length : Int) ≤ readPositiveIntFromEnv numValue env 3 ∧
    s.started ++ s.queue = List.range n ∧
    (env = none → readPositiveIntFromEnv numValue env 3 = 3) := by
  induction h with
  | init =>
      refine ⟨?_, by simp [initDispatchState], fun he => by simp [he, readPositiveIntFromEnv]⟩
      simpa [initDispatchState] using
        readPositiveIntFromEnv_nonneg numValue env 3 (by norm_num)
  | step s s' hreach hstep ih =>
      obtain ⟨ihb, ihf, ihd⟩ := ih
      cases hstep with
      | start i rest sarg hq hcap =>
          refine ⟨?_, ?_, ihd⟩
          · simp only [List.length_append, List.length_cons, List.length_nil]
            have hc : ((s.running.length + 1 : Nat) : Int) =
                (s.running.length : Int) + 1 := by push_cast; ring
            omega
          · rw [← ihf, hq]
            simp
      | finish i sarg hmem =>
          refine ⟨?_, by simpa using ihf, ihd⟩
          have hle : (s.running.erase i).length ≤ s.running.length :=
            List.length_erase_le i s.running
          calc ((s.running.erase i).length : Int)
              ≤ (s.running.length : Int) := by exact_mod_cast hle
            _ ≤ readPositiveIntFromEnv numValue env 3 := ihb

/-- C5 (witness): the initial state on two tasks with the variable
unset. -/
theorem dispatcher_bound_and_fifo_witness :
    ((initDispatchState 2).running.length : Int) ≤
      readPositiveIntFromEnv (fun _ => none) none 3 ∧
    (initDispatchState 2).started ++ (initDispatchState 2).queue =
      List.range 2 ∧
    ((none : Option String) = none →
      readPositiveIntFromEnv (fun _ => none) none 3 = 3) :=
  dispatcher_bound_and_fifo (fun _ => none) none 2 (initDispatchState 2)
    DispatchReachable.init

/-- An `AgentTask` (src/orchestrator/dispatcher.ts lines 58-62):
id plus optional per-task timeout override. -/
structure AgentTask where
  agent_id : String
  timeoutMs : Option Nat
deriving DecidableEq, Repr

/-- The observable behaviour of one task's `execute()` promise: how long
it runs and whether it resolves with findings or rejects. -/
structure TaskBehavior where
  duration : Nat
  result : Except String (List Finding)
deriving Repr

/-- `AgentRunStatus` from `src/types.ts`. -/
inductive AgentStatus where
  | queued
  | running
  | completed
  | failed
  | timed_out
deriving DecidableEq, Repr

/-- The fields of an `AgentRunRecord` that `runTask` decides
(timestamps are wall-clock effects). -/
structure AgentRunRecord where
  agent_id : String
  status : AgentStatus
  finding_count : Option Nat
  error : Option String
deriving DecidableEq, Repr

/-- The two ways the `Promise.race` inside `withTimeout`
(src/orchestrator/dispatcher.ts lines 41-56) can settle. -/
inductive RaceOutcome where
  | timedOut
  | settled (r : Except String (List Finding))
deriving Repr

/-- `withTimeout`: the timer rejects with `AgentTimeoutError` when the
task outlives `timeoutMs`, otherwise the task's own settlement wins
(at an exact tie the model lets the task win; the claim only concerns
tasks strictly exceeding their deadline). -/
def withTimeout (b : TaskBehavior) (timeoutMs : Nat) : RaceOutcome :=
  if timeoutMs < b.duration then RaceOutcome.timedOut
  else RaceOutcome.settled b.result

/-- The `AgentTimeoutError` message
(src/orchestrator/dispatcher.ts lines 19-23). -/
def agentTimeoutMessage (agentId : String) (timeoutMs : Nat) : String :=
  "Agent timed out: " ++ agentId ++ " (" ++ toString timeoutMs ++ "ms)"

/-- The try/catch of `runTask` (src/orchestrator/dispatcher.ts lines
112-141): a completed task records `completed` with its finding count
and contributes its findings; an `AgentTimeoutError` records
`timed_out`; any other error records `failed`; in the last two cases
`findings.push` is never reached, so nothing is contributed. -/
def settleTask (defaultTimeoutMs : Nat) (task : AgentTask)
    (b : TaskBehavior) : AgentRunRecord × List Finding :=
  match withTimeout b (task.timeoutMs.getD defaultTimeoutMs) with
  | RaceOutcome.timedOut =>
      ({ agent_id := task.agent_id
         status := AgentStatus.timed_out
         finding_count := none
         error := some (agentTimeoutMessage task.agent_id
           (task.timeoutMs.getD defaultTimeoutMs)) }, [])
  | RaceOutcome.settled (Except.error msg) =>
      ({ agent_id := task.agent_id
         status := AgentStatus.failed
         finding_count := none
         error := some msg }, [])
  | RaceOutcome.settled (Except.ok fs) =>
      ({ agent_id := task.agent_id
         status := AgentStatus.completed
         finding_count := some fs.length
         error := none }, fs)

/-- `DispatchResult` from src/orchestrator/dispatcher.ts lines 14-17. -/
structure DispatchResultModel where
  findings : List Finding
  agent_runs : List AgentRunRecord
deriving DecidableEq, Repr

/-- The findings task `i` pushes into the shared collector. -/
def taskContribution (defaultTimeoutMs : Nat)
    (pairs : List (AgentTask × TaskBehavior)) (i : Nat) : List Finding :=
  match pairs.get? i with
  | some (t, b) => (settleTask defaultTimeoutMs t b).2
  | none => []

/-- The settled outcome of `dispatchScanners`: one record per task (in
task order) and the findings accumulated in completion order
(`completionOrder` is the nondeterministic order in which the tasks
settle). -/
def dispatchOutcome (defaultTimeoutMs : Nat)
    (pairs : List (AgentTask × TaskBehavior))
    (completionOrder : List Nat) : DispatchResultModel :=
  { findings :=
      completionOrder.flatMap (taskContribution defaultTimeoutMs pairs)
    agent_runs :=
      pairs.map fun p => (settleTask defaultTimeoutMs p.1 p.2).1 }

theorem settleTask_terminal (d : Nat) (t : AgentTask) (b : TaskBehavior) :
    (settleTask d t b).1.status ≠ AgentStatus.queued ∧
    (settleTask d t b).1.status ≠ AgentStatus.running := by
  unfold settleTask withTimeout
  by_cases h : (t.timeoutMs.getD d) < b.duration
  · simp [h]
  · cases hr : b.result <;> simp [h, hr]

theorem bind_eq_bind_filter (c : Nat → List Finding) (i : Nat)
    (hc : c i = []) (order : List Nat) :
    order.flatMap c = (order.filter fun j => j != i).flatMap c := by
  induction order with
  | nil => rfl
  | cons j rest ih =>
      by_cases hj : j = i
      · subst hj
        simp [List.flatMap_cons, hc, ih]
      · simp [List.flatMap_cons, List.filter_cons, hj, ih]

/-- C6: a task strictly exceeding its effective deadline settles with an
AgentRun whose status is `timed_out` and contributes no findings — the
dispatch result's findings are exactly those of the other tasks in
completion order; every task still settles with a terminal record
(never `queued` or `running`), and each other task's record is its own
`settleTask`, unaffected by the timeout. -/
theorem timeout_yields_timed_out_and_no_findings (defaultTimeoutMs : Nat)
    (pairs : List (AgentTask × TaskBehavior)) (completionOrder : List Nat)
    (i : Nat) (t : AgentTask) (b : TaskBehavior)
    (hget : pairs.get? i = some (t, b))
    (hexceed : t.timeoutMs.getD defaultTimeoutMs < b.duration) :
    (settleTask defaultTimeoutMs t b).1.status = AgentStatus.timed_out ∧
    taskContribution defaultTimeoutMs pairs i = [] ∧
    (dispatchOutcome defaultTimeoutMs pairs completionOrder).agent_runs.get? i =
      some (settleTask defaultTimeoutMs t b).1 ∧
    (dispatchOutcome defaultTimeoutMs pairs completionOrder).findings =
      (completionOrder.filter fun j => j != i).flatMap
        (taskContribution defaultTimeoutMs pairs) ∧
    ∀ r ∈ (dispatchOutcome defaultTimeoutMs pairs completionOrder).agent_runs,
      r.status ≠ AgentStatus.queued ∧ r.status ≠ AgentStatus.running := by
  have hsettle : settleTask defaultTimeoutMs t b =
      ({ agent_id := t.agent_id
         status := AgentStatus.timed_out
         finding_count := none
         error := some (agentTimeoutMessage t.agent_id
           (t.timeoutMs.getD defaultTimeoutMs)) }, []) := by
    unfold settleTask withTimeout
    simp [hexceed]
  have hcontrib : taskContribution defaultTimeoutMs pairs i = [] := by
    unfold taskContribution
    rw [hget]
    simp [hsettle]
  refine ⟨by rw [hsettle], hcontrib, ?_, ?_, ?_⟩
  · show (pairs.map fun p =>
        (settleTask defaultTimeoutMs p.1 p.2).1).get? i = _
    rw [List.get?_map, hget]
    rfl
  · exact bind_eq_bind_filter _ i hcontrib completionOrder
  · intro r hr
    obtain ⟨p, hp, hpr⟩ := List.mem_map.mp hr
    rw [← hpr]
    exact settleTask_terminal defaultTimeoutMs p.1 p.2

/-- A task whose 200 ms deadline is exceeded by a 500 ms execution that
would have produced one finding. -/
def slowTask : AgentTask := { agent_id := "scanner.slow", timeoutMs := some 200 }

/-- The slow task's behaviour. -/
def slowBehavior : TaskBehavior :=
  { duration := 500, result := Except.ok [lowLoneFinding] }

/-- A fast task completing within its default deadline. -/
def fastTask : AgentTask := { agent_id := "scanner.fast", timeoutMs := none }

/-- The fast task's behaviour. -/
def fastBehavior : TaskBehavior :=
  { duration := 10, result := Except.ok [corrFindingA] }

/-- C6 (witness): the slow task times out and only the fast task's
finding is contributed. -/
theorem timeout_yields_timed_out_and_no_findings_witness :
    (settleTask 90000 slowTask slowBehavior).1.status = AgentStatus.timed_out ∧
    taskContribution 90000 [(fastTask, fastBehavior), (slowTask, slowBehavior)] 1 = [] ∧
    (dispatchOutcome 90000 [(fastTask, fastBehavior), (slowTask, slowBehavior)]
      [1, 0]).agent_runs.get? 1 = some (settleTask 90000 slowTask slowBehavior).1 ∧
    (dispatchOutcome 90000 [(fastTask, fastBehavior), (slowTask, slowBehavior)]
      [1, 0]).findings =
      ([1, 0].filter fun j => j != 1).flatMap
        (taskContribution 90000 [(fastTask, fastBehavior), (slowTask, slowBehavior)]) ∧
    ∀ r ∈ (dispatchOutcome 90000 [(fastTask, fastBehavior), (slowTask, slowBehavior)]
      [1, 0]).agent_runs,
      r.status ≠ AgentStatus.queued ∧ r.status ≠ AgentStatus.running :=
  timeout_yields_timed_out_and_no_findings 90000
    [(fastTask, fastBehavior), (slowTask, slowBehavior)] [1, 0] 1
    slowTask slowBehavior rfl (by decide)
